import Mathlib

/-!
Verification of the terminal-portfolio command interpreter
(`src/app/page.tsx`).  The interpreter, its formatter helpers, the
history-navigation key handler and the localStorage persistence logic are
shallowly embedded below; strings are Lean `String`s (lists of characters),
JS numbers appearing here are integers and are embedded as `Int`/`Nat`.
-/

set_option maxRecDepth 10000
set_option maxHeartbeats 1600000

namespace Portfolio

/-- The ASCII double-quote character (code 34). -/
def quoteChar : Char := Char.ofNat 34

/-- The ASCII apostrophe character (code 39); written via `Char.ofNat`. -/
def aposChar : Char := Char.ofNat 39

/-- One-character string holding the apostrophe, used to build the markup
fragments that the source writes with single-quoted HTML attributes. -/
def sq : String := String.singleton aposChar

/-- Whitespace test matching the regexp class used by the source
(`\s`, restricted to the blank, tab, newline and carriage-return
characters that can occur in the input line). -/
def isWs (c : Char) : Bool := c == ' ' || c == '\t' || c == '\n' || c == '\r'

/-- Model of `String.prototype.trim`: drop whitespace from both ends. -/
def trimList (l : List Char) : List Char :=
  ((l.dropWhile isWs).reverse.dropWhile isWs).reverse

/-- Model of `raw.trim()` of the source. -/
def trimStr (s : String) : String := String.mk (trimList s.data)

/-- Helper for splitting on runs of whitespace (the `split(/\s+/)` of the
source applied to a trimmed string, which yields the non-empty tokens). -/
def splitWsAux : List Char → List Char → List (List Char)
  | [], acc => if acc.isEmpty then [] else [acc.reverse]
  | c :: rest, acc =>
    if isWs c then
      if acc.isEmpty then splitWsAux rest [] else acc.reverse :: splitWsAux rest []
    else splitWsAux rest (c :: acc)

/-- Model of `cmd.split(/\s+/)` on the trimmed command line. -/
def splitWs (s : String) : List String := (splitWsAux s.data []).map String.mk

/-- Lowercasing (`toLowerCase`) of one character (ASCII range, which covers every
character compared by the source: command names and theme names). -/
def toLowerChar (c : Char) : Char :=
  if 'A' ≤ c && c ≤ 'Z' then Char.ofNat (c.toNat + 32) else c

/-- Model of `s.toLowerCase()` (ASCII range). -/
def lowerStr (s : String) : String := String.mk (s.data.map toLowerChar)

/-- Decimal digit test. -/
def isDigitChar (c : Char) : Bool := '0' ≤ c && c ≤ '9'

/-- Value of a non-empty digit string. -/
def digitsVal (l : List Char) : Nat :=
  l.foldl (fun acc c => acc * 10 + (c.toNat - 48)) 0

/-- Leading run of digits, or `none` when there is none. -/
def parseDigits (l : List Char) : Option Nat :=
  let ds := l.takeWhile isDigitChar
  if ds.isEmpty then none else some (digitsVal ds)

/-- Model of `parseInt(s, 10)` of JavaScript: skip leading whitespace, read an
optional sign and then the leading run of decimal digits; `none` models
the `NaN` result when no digit is found. -/
def jsParseInt (s : String) : Option Int :=
  match s.data.dropWhile isWs with
  | '-' :: rest => (parseDigits rest).map (fun v => -(v : Int))
  | '+' :: rest => (parseDigits rest).map (fun v => (v : Int))
  | l => (parseDigits l).map (fun v => (v : Int))

/-- Character of a single decimal digit. -/
def digitChar (d : Nat) : Char :=
  match d with
  | 0 => '0' | 1 => '1' | 2 => '2' | 3 => '3' | 4 => '4'
  | 5 => '5' | 6 => '6' | 7 => '7' | 8 => '8' | 9 => '9'
  | _ => '*'

/-- Decimal digits of a natural number, most significant first; the fuel
argument (always passed as `n + 1`, an upper bound on the digit count)
keeps the recursion structural. -/
def natDigitsAux (fuel : Nat) (n : Nat) : List Char :=
  match fuel with
  | 0 => []
  | fuel + 1 =>
    if n < 10 then [digitChar n]
    else natDigitsAux fuel (n / 10) ++ [digitChar (n % 10)]

/-- Decimal rendering of a natural number (the `${n}` interpolation of an
integral JS number). -/
def natToString (n : Nat) : String := String.mk (natDigitsAux (n + 1) n)

/-- Decimal rendering of an integer. -/
def intToString (n : Int) : String :=
  if n < 0 then "-" ++ natToString n.natAbs else natToString n.toNat

/-- Model of `replaceAll` with a one-character search string. -/
def replaceAllChar (needle : Char) (rep : List Char) : List Char → List Char
  | [] => []
  | c :: rest => (if c = needle then rep else [c]) ++ replaceAllChar needle rep rest

/-- The `escapeHtml` function of the source: the five sequential `replaceAll` passes,
ampersand first, apostrophe last. -/
def escapeHtml (s : String) : String :=
  String.mk (replaceAllChar aposChar ("&#039;".data)
    (replaceAllChar quoteChar ("&quot;".data)
      (replaceAllChar '>' ("&gt;".data)
        (replaceAllChar '<' ("&lt;".data)
          (replaceAllChar '&' ("&amp;".data) s.data)))))

/-- Model of `Array.prototype.join(sep)`. -/
def joinSep (sep : String) : List String → String
  | [] => ""
  | [x] => x
  | x :: xs => x ++ sep ++ joinSep sep xs

/-- A project entry of the static `CONFIG`. -/
structure Project where
  title : String
  description : String
  tech : List String
  demoUrl : String
  sourceUrl : String
deriving DecidableEq

/-- The `bio` block of `CONFIG`. -/
structure BioCfg where
  name : String
  role : String
  location : String
  about : String
  skills : List String
deriving DecidableEq

/-- The `socials` block of `CONFIG`. -/
structure SocialsCfg where
  github : String
  linkedin : String
  twitter : String
deriving DecidableEq

/-- The static `CONFIG` object. -/
structure ConfigT where
  promptUser : String
  promptHost : String
  location : String
  typingMsPerChar : Nat
  outputMsPerChar : Nat
  pageSize : Nat
  email : String
  socials : SocialsCfg
  resumeUrl : String
  bio : BioCfg
  projects : List Project
deriving DecidableEq

/-- The `CONFIG` constant of the source, verbatim. -/
def CONFIG : ConfigT :=
  { promptUser := "alokkumax"
    promptHost := "portfolio"
    location := "~/"
    typingMsPerChar := 10
    outputMsPerChar := 6
    pageSize := 5
    email := "hello@example.com"
    socials :=
      { github := "https://github.com/yourname"
        linkedin := "https://www.linkedin.com/in/yourname/"
        twitter := "https://twitter.com/yourname" }
    resumeUrl := "https://www.w3.org/WAI/ER/tests/xhtml/testfiles/resources/pdf/dummy.pdf"
    bio :=
      { name := "Alok Kumar Sah"
        role := "Frontend Engineer"
        location := "Somewhere, Earth"
        about := "I craft fast, accessible web apps. I enjoy systems design, DX, and beautiful UIs."
        skills := ["TypeScript", "React", "Next.js", "Node.js", "Tailwind CSS", "Testing"] }
    projects :=
      [ { title := "zensu"
          description := "A calm productivity tool focused on flow and minimal UI."
          tech := ["Next.js", "TypeScript", "Tailwind"]
          demoUrl := "#"
          sourceUrl := "https://github.com/alokkumax/zensu" }
      , { title := "danger ahead"
          description := "Realtime hazard alerts demo with map overlays."
          tech := ["React", "WebSocket", "Maplibre"]
          demoUrl := "#"
          sourceUrl := "https://github.com/alokkumax/danger-ahead" }
      , { title := "groceryCMS"
          description := "Headless CMS starter for small grocery catalogs."
          tech := ["Next.js", "Prisma", "SQLite"]
          demoUrl := "#"
          sourceUrl := "https://github.com/alokkumax/groceryCMS" }
      , { title := "echomeets"
          description := "Lightweight audio-first meeting notes with transcripts."
          tech := ["TypeScript", "Web Audio", "VAD"]
          demoUrl := "#"
          sourceUrl := "https://github.com/alokkumax/echomeets" } ] }

/-- The keys of the `THEMES` record, in source order. -/
def themeNames : List String := ["dark", "matrix", "solarized", "light"]

/-- The names of the members every plain object literal inherits from
`Object.prototype` in a browser engine.  The JS `in` operator
(`t in THEMES`) and plain property access (`details[arg]`) see these in
addition to the object's own keys; the inherited values are functions
(or, for `__proto__`, an object), never strings. -/
def objectProtoKeys : List String :=
  [ "constructor", "hasOwnProperty", "isPrototypeOf", "propertyIsEnumerable"
  , "toLocaleString", "toString", "valueOf", "__defineGetter__", "__defineSetter__"
  , "__lookupGetter__", "__lookupSetter__", "__proto__" ]

/-- Opening tag of a classed span, as written single-quoted in the source
markup. -/
def spanOpen (cls : String) : String := "<span class=" ++ sq ++ cls ++ sq ++ ">"

/-- Closing span tag. -/
def spanClose : String := "</span>"

/-- The `strong` helper of the source. -/
def strong (s : String) : String := spanOpen "title" ++ escapeHtml s ++ spanClose

/-- The `code` helper of the source. -/
def code (s : String) : String :=
  "<code class=" ++ sq ++ "px-2 py-0.5 rounded bg-white/10" ++ sq ++ ">"
    ++ escapeHtml s ++ "</code>"

/-- The tag pill produced for a tech entry or skill: a span of class
tag (written with single-quoted attributes) holding the escaped text. -/
def renderTag (t : String) : String := spanOpen "tag" ++ escapeHtml t ++ spanClose

/-- An anchor as emitted by the source: the URL is interpolated raw
(trusted config), the label is the literal text given. -/
def anchor (url label : String) : String :=
  "<a href=" ++ sq ++ url ++ sq ++ " target=" ++ sq ++ "_blank" ++ sq
    ++ " rel=" ++ sq ++ "noreferrer" ++ sq ++ ">" ++ label ++ "</a>"

/-- One project line of the `/projects` listing, with its 1-based global
index. -/
def projectLine (idx : Nat) (p : Project) : String :=
  natToString idx ++ ". " ++ spanOpen "title" ++ escapeHtml p.title ++ spanClose
    ++ " — " ++ escapeHtml p.description ++ " " ++ spanOpen "dim"
    ++ joinSep " " (p.tech.map renderTag) ++ spanClose ++ " \n "
    ++ anchor p.demoUrl "demo" ++ " · " ++ anchor p.sourceUrl "source"

/-- The page number computed for `/projects`:
`Math.max(1, parseInt(rest[0] || "1", 10) || 1)` (a `NaN` or `0` parse
falls back to 1, then the result is clamped to at least 1). -/
def jsPageArg (restHead : Option String) : Int :=
  max 1 (match jsParseInt (restHead.getD "1") with
         | none => 1
         | some n => if n = 0 then 1 else n)

/-- Output lines of the `/projects` handler. -/
def projectsLines (ps : List Project) (pageSize : Nat) (restHead : Option String) :
    List String :=
  let page := jsPageArg restHead
  let start := (page - 1).toNat * pageSize
  let slice := (ps.drop start).take pageSize
  let totalPages : Nat := max 1 ((ps.length + pageSize - 1) / pageSize)
  if slice.isEmpty then ["No projects on page " ++ intToString page ++ "."]
  else
    ("Projects (page " ++ intToString page ++ "/" ++ natToString totalPages ++ "):")
      :: (slice.enum.map (fun ip => projectLine (start + ip.1 + 1) ip.2)
          ++ ["Type " ++ sq ++ "open <n>" ++ sq ++ " to open demo in a new tab."])

/-- Usage line of the `open` command. -/
def openUsage : String := "Usage: open <n> — open the nth project demo."

/-- Side effects an executed command can trigger through the host
capabilities (`window.open`, `navigator.clipboard.writeText`). -/
inductive Effect where
  | openUrl (url : String)
  | clipboardWrite (text : String)
deriving DecidableEq

/-- The `open` handler: parses `rest[0] || ""`; a falsy parse (`NaN` or 0)
prints usage; otherwise `CONFIG.projects[n - 1]` is looked up (undefined
for negative or out-of-range `n`, giving the not-found line); a hit opens
the demo URL in a new tab and prints the confirmation. -/
def openCmd (ps : List Project) (restHead : Option String) :
    List String × List Effect :=
  match jsParseInt (restHead.getD "") with
  | none => ([openUsage], [])
  | some n =>
    if n = 0 then ([openUsage], [])
    else
      match (if 1 ≤ n then ps.get? (n - 1).toNat else none) with
      | none => (["Project " ++ intToString n ++ " not found."], [])
      | some p => (["Opening " ++ escapeHtml p.title ++ "..."], [Effect.openUrl p.demoUrl])

/-- The session state touched by the interpreter: submitted-command
history, history cursor (`-1` = not browsing), input buffer, scrollback
(one block of lines per executed command) and current theme name. -/
structure TermState where
  history : List String
  historyIdx : Int
  input : String
  output : List (List String)
  theme : String
deriving DecidableEq

/-- The `print(lines)` helper: append one output block to the scrollback. -/
def print (st : TermState) (lines : List String) : TermState :=
  { st with output := st.output ++ [lines] }

/-- The initial session state (empty scrollback and history, default
theme `dark`, cursor not browsing). -/
def initState : TermState :=
  { history := [], historyIdx := -1, input := "", output := [], theme := "dark" }

/-- The `details` record of the `/help` handler, in source order; keys are
looked up exactly (case-sensitively, leading slash included). -/
def helpDetails : List (String × String) :=
  [ ("/help", "Usage: /help [command] — show available commands or details.")
  , ("/projects", "Usage: /projects [page] — paginated list. " ++ sq ++ "open <n>" ++ sq ++ " to open.")
  , ("/about", "Usage: /about — short bio, role, location, skills.")
  , ("/contact", "Usage: /contact — email and socials. " ++ sq ++ "copy email" ++ sq ++ " to clipboard.")
  , ("/resume", "Usage: /resume — open/download resume PDF.")
  , ("/theme", "Usage: /theme <light|dark|matrix|solarized> — switch theme.")
  , ("/clear", "Usage: /clear — clear terminal history (alias: cls).") ]

/-- Output of `/help` with no argument. -/
def helpListLines : List String :=
  [ strong "Available commands:"
  , code "/help"
  , code "/help <command>"
  , code "/projects [page]"
  , code "open <n>"
  , code "/about"
  , code "/contact"
  , code "/resume"
  , code "/theme <light|dark|matrix|solarized>"
  , code "/clear | cls" ]

/-- Output lines of the `/help` handler.  The source computes
`details[arg] || fallback` and prints `escapeHtml` of the result: an
exact (case-sensitive) own-key hit yields that detail text; an argument
naming an inherited `Object.prototype` member yields the inherited
non-string member, which is truthy, so `escapeHtml` then calls
`replaceAll` on a non-string and throws — nothing is printed (`none`);
every other argument falls to the no-details line (all stored detail
texts are non-empty, so `||` is an exact-key lookup with fallback). -/
def helpCmdLines (arg : String) : Option (List String) :=
  if arg = "" then some helpListLines
  else
    match List.lookup arg helpDetails with
    | some text => some [escapeHtml text]
    | none =>
      if objectProtoKeys.contains arg then none
      else some [escapeHtml ("No details for " ++ sq ++ arg ++ sq ++ ".")]

/-- Output lines of the `/about` handler. -/
def aboutLines (b : BioCfg) : List String :=
  [ strong (b.name ++ " — " ++ b.role)
  , escapeHtml b.location
  , escapeHtml b.about
  , "Skills: " ++ joinSep " " (b.skills.map renderTag) ]

/-- Output lines of the `/contact` handler. -/
def contactLines : List String :=
  [ "Email: <a href=" ++ sq ++ "mailto:" ++ CONFIG.email ++ sq ++ ">" ++ CONFIG.email
      ++ "</a> (type " ++ sq ++ "copy email" ++ sq ++ ")"
  , "GitHub: " ++ anchor CONFIG.socials.github CONFIG.socials.github
  , "LinkedIn: " ++ anchor CONFIG.socials.linkedin CONFIG.socials.linkedin
  , "Twitter: " ++ anchor CONFIG.socials.twitter CONFIG.socials.twitter ]

/-- The lowercased haystack a project is searched in:
`` `${p.title} ${p.description} ${p.tech.join(" ")}`.toLowerCase() ``. -/
def searchHay (p : Project) : String :=
  lowerStr (p.title ++ " " ++ p.description ++ " " ++ joinSep " " p.tech)

/-- Substring test (`String.prototype.includes`) on character lists. -/
def containsSub : List Char → List Char → Bool
  | [], needle => needle.isEmpty
  | c :: t, needle => needle.isPrefixOf (c :: t) || containsSub t needle

/-- One search-result line, carrying the 1-based global index. -/
def searchResultLine (i : Nat) (p : Project) : String :=
  natToString (i + 1) ++ ". " ++ spanOpen "title" ++ escapeHtml p.title ++ spanClose
    ++ " — " ++ escapeHtml p.description

/-- The matches of the `search` fallback: projects, with their 0-based
position, whose haystack contains every whitespace-split sub-term of the
(already lowercased) term. -/
def searchMatches (ps : List Project) (term : String) : List (Nat × Project) :=
  ps.enum.filter
    (fun ip => (splitWs term).all (fun qt => containsSub (searchHay ip.2).data qt.data))

/-- Output lines of the `search` fallback. -/
def searchLines (ps : List Project) (arg : String) : List String :=
  let term := lowerStr arg
  if term = "" then ["Usage: search <term>"]
  else
    let ms := searchMatches ps term
    if ms.isEmpty then ["No matches for " ++ sq ++ escapeHtml term ++ sq ++ "."]
    else
      strong ("Search results (" ++ natToString ms.length ++ "):")
        :: ms.map (fun ip => searchResultLine ip.1 ip.2)

/-- Usage line of `/theme`. -/
def themeUsage : String := "Usage: /theme <light|dark|matrix|solarized>"

/-- The command dispatcher: the `switch (name.toLowerCase())` of
`handleCommand`, run after the history append on the updated state.
`clipOk` models whether the clipboard-write capability resolves.  The
`/theme` guard is the JS `t in THEMES` check, which also matches the
inherited `Object.prototype` member names; the `/help` branch prints
nothing when its lookup hit an inherited non-string member (the handler
throws inside `escapeHtml`). -/
def runCmd (clipOk : Bool) (name : String) (rest : List String) (st : TermState) :
    TermState × List Effect :=
  if lowerStr name = "/help" then
    ((match helpCmdLines (joinSep " " rest) with
      | some lines => print st lines
      | none => st), [])
  else if lowerStr name = "/projects" then
    (print st (projectsLines CONFIG.projects CONFIG.pageSize rest.head?), [])
  else if lowerStr name = "open" then
    (print st (openCmd CONFIG.projects rest.head?).1, (openCmd CONFIG.projects rest.head?).2)
  else if lowerStr name = "/about" then (print st (aboutLines CONFIG.bio), [])
  else if lowerStr name = "/contact" then (print st contactLines, [])
  else if lowerStr name = "copy" then
    (if lowerStr (joinSep " " rest) = "email" then
      (print st [if clipOk then "Email copied to clipboard."
                 else "Copy failed — your browser blocked clipboard access."],
       [Effect.clipboardWrite CONFIG.email])
    else (print st ["Usage: copy email"], []))
  else if lowerStr name = "/resume" then
    (print st ["Opening resume.pdf …"], [Effect.openUrl CONFIG.resumeUrl])
  else if lowerStr name = "/theme" then
    (match rest.head? with
     | none => (print st [themeUsage], [])
     | some s =>
       if themeNames.contains (lowerStr s) || objectProtoKeys.contains (lowerStr s) then
         (print { st with theme := lowerStr s } ["Theme set to " ++ lowerStr s ++ "."], [])
       else (print st [themeUsage], []))
  else if lowerStr name = "/clear" then ({ st with output := [] }, [])
  else if lowerStr name = "cls" then ({ st with output := [] }, [])
  else if lowerStr name = "search" then
    (print st (searchLines CONFIG.projects (joinSep " " rest)), [])
  else (print st ["Command not found: " ++ escapeHtml name ++ ". Type /help."], [])

/-- The `handleCommand(raw)` entry point: trim; a blank line is a no-op; otherwise the
trimmed line is appended to history, the cursor reset to -1 and the
input buffer cleared, and only then the tokenized command is dispatched. -/
def handleCommand (clipOk : Bool) (raw : String) (st : TermState) :
    TermState × List Effect :=
  if trimStr raw = "" then (st, [])
  else
    runCmd clipOk ((splitWs (trimStr raw)).headD "") (splitWs (trimStr raw)).tail
      { st with history := st.history ++ [trimStr raw], historyIdx := -1, input := "" }

/-- The ArrowDown branch of `onKeyDown`: with a non-empty history, a
cursor of -1 stays -1 (and the input is cleared); otherwise the cursor is
incremented but clamped to the last entry, and the input buffer is set to
that entry. -/
def arrowDown (st : TermState) : TermState :=
  if st.history.length = 0 then st
  else
    let idx : Int :=
      if st.historyIdx = -1 then -1
      else min ((st.history.length : Int) - 1) (st.historyIdx + 1)
    { st with historyIdx := idx
              input := if idx = -1 then "" else (st.history.get? idx.toNat).getD "" }

/-- Backslash-and-quote escaping of `JSON.stringify` on a string value
(control characters do not occur in the stored theme values). -/
def escJsonChars : List Char → List Char
  | [] => []
  | c :: r =>
    (if c = '\\' then ['\\', '\\']
     else if c = quoteChar then ['\\', quoteChar] else [c]) ++ escJsonChars r

/-- Model of `JSON.stringify` of a string value: quote and escape. -/
def jsonStringifyString (s : String) : String :=
  String.mk (quoteChar :: (escJsonChars s.data ++ [quoteChar]))

/-- Body parser for a JSON string literal: unescape until the closing
quote, which must end the input. -/
def jsonParseBody : List Char → List Char → Option (List Char)
  | [], _ => none
  | c :: rest, acc =>
    if c = quoteChar then (if rest.isEmpty then some acc.reverse else none)
    else if c = '\\' then
      match rest with
      | [] => none
      | r :: rest2 => jsonParseBody rest2 (r :: acc)
    else jsonParseBody rest (c :: acc)

/-- Parse a (whitespace-trimmed) JSON string-literal document: a leading
quote, an escaped body, and the closing quote ending the document. -/
def jsonStringLit (l : List Char) : Option String :=
  match l with
  | c :: rest => if c = quoteChar then (jsonParseBody rest []).map String.mk else none
  | [] => none

/-- Validity of the exponent suffix of a JSON number (empty, or
`e`/`E`, an optional sign and one or more digits ending the document). -/
def jsonExpPart (l : List Char) : Bool :=
  match l with
  | [] => true
  | c :: r =>
    if c = 'e' ∨ c = 'E' then
      let r2 := match r with
        | '+' :: r3 => r3
        | '-' :: r3 => r3
        | _ => r
      if (r2.takeWhile isDigitChar).isEmpty then false
      else (r2.dropWhile isDigitChar).isEmpty
    else false

/-- Validity of the fraction-and-exponent suffix of a JSON number. -/
def jsonFracPart (l : List Char) : Bool :=
  match l with
  | '.' :: r =>
    if (r.takeWhile isDigitChar).isEmpty then false
    else jsonExpPart (r.dropWhile isDigitChar)
  | _ => jsonExpPart l

/-- Validity of a complete JSON number document: optional minus, `0` or a
non-zero-led digit run, then optional fraction and exponent. -/
def jsonNumberValid (l : List Char) : Bool :=
  match (match l with | '-' :: r => r | _ => l) with
  | [] => false
  | '0' :: r => jsonFracPart r
  | c :: r => if isDigitChar c then jsonFracPart (r.dropWhile isDigitChar) else false

/-- The value classes `JSON.parse` can return for a stored raw string. -/
inductive JsVal where
  | jstr (s : String)
  | jnum
  | jbool
  | jnull
  | jcomposite
deriving DecidableEq

/-- Model of `JSON.parse` on a stored value: after trimming the JSON
whitespace, a string literal yields its contents, the keywords `true`,
`false`, `null` and a valid number document yield non-string values, and
everything else throws (`none`).  An array or object document is marked
`jcomposite` without evaluating it (for a bracket-led document that is
itself malformed the real parser would throw instead; such documents are
never stored for the theme key, whose writes are `JSON.stringify` of a
string, and no theorem below evaluates this corner). -/
def parseStored (raw : String) : Option JsVal :=
  let l := trimList raw.data
  match jsonStringLit l with
  | some s => some (JsVal.jstr s)
  | none =>
    match l with
    | [] => none
    | c :: _ =>
      if c = quoteChar then none
      else if c = '[' ∨ c = Char.ofNat 123 then some JsVal.jcomposite
      else if l = ("true").data then some JsVal.jbool
      else if l = ("false").data then some JsVal.jbool
      else if l = ("null").data then some JsVal.jnull
      else if jsonNumberValid l then some JsVal.jnum
      else none

/-- The read path of `useLocalStorage` for the stored theme, as the
string the session ends up with: a stored JSON string literal reads back
as its contents; a raw value `JSON.parse` throws on (in particular a
legacy bare theme name) is accepted as the raw string itself; a raw
value parsing to a non-string JSON value (a number such as `123`, a
boolean, `null`, or a composite) does not read back as a string at all
(`none` — the cast `as T` in the source then holds a non-string). -/
def readStoredTheme (raw : String) : Option String :=
  match parseStored raw with
  | some (JsVal.jstr s) => some s
  | none => some raw
  | some _ => none

/-- The character sequence of the literal text `<script>`. -/
def scriptTag : List Char := ['<', 's', 'c', 'r', 'i', 'p', 't', '>']

/-- A fragment is safe when no occurrence of `scriptTag` can start inside
it, whatever follows: every suffix shorter than the tag is not a prefix of
the tag, and the tag is not a prefix of any longer suffix. -/
def fragOk (F : List Char) : Bool :=
  match F with
  | [] => true
  | c :: rest =>
    (if scriptTag.length ≤ (c :: rest).length
     then !(scriptTag.isPrefixOf (c :: rest))
     else !((c :: rest).isPrefixOf scriptTag)) && fragOk rest

/-- A chunk passes when prepending it never creates nor destroys an
occurrence of `scriptTag`. -/
def Passes (s : List Char) : Prop :=
  ∀ l, containsSub (s ++ l) scriptTag = containsSub l scriptTag

/-- String-level version of `Passes`. -/
def PassesS (s : String) : Prop := Passes s.data

/-- The rendered string contains no occurrence of the literal `<script>`. -/
def scriptFree (s : String) : Prop := containsSub s.data scriptTag = false

/-! Theorems.  First the generic string/list lemmas, then one theorem per
claim (with witnesses and counterexamples where required). -/

theorem isPrefixOf_true_iff (n : List Char) : ∀ h : List Char,
    n.isPrefixOf h = true ↔ ∃ t, h = n ++ t := by
  induction n with
  | nil => intro h; simp [List.isPrefixOf]
  | cons a as ih =>
    intro h
    cases h with
    | nil => simp [List.isPrefixOf]
    | cons b bs =>
      simp only [List.isPrefixOf, Bool.and_eq_true, beq_iff_eq, ih bs, List.cons_append,
        List.cons.injEq]
      constructor
      · rintro ⟨rfl, t, rfl⟩; exact ⟨t, rfl, rfl⟩
      · rintro ⟨t, rfl, rfl⟩; exact ⟨rfl, t, rfl⟩

theorem containsSub_iff (n : List Char) : ∀ h : List Char,
    containsSub h n = true ↔ ∃ pre post, h = pre ++ n ++ post := by
  intro h
  induction h with
  | nil =>
    simp only [containsSub, List.isEmpty_iff]
    constructor
    · rintro rfl; exact ⟨[], [], rfl⟩
    · rintro ⟨pre, post, hh⟩
      rcases List.append_eq_nil.mp (List.append_eq_nil.mp hh.symm).1 with ⟨_, h2⟩
      exact h2
  | cons c t ih =>
    simp only [containsSub, Bool.or_eq_true, isPrefixOf_true_iff, ih]
    constructor
    · rintro (⟨post, hp⟩ | ⟨pre, post, rfl⟩)
      · exact ⟨[], post, by simpa using hp⟩
      · exact ⟨c :: pre, post, rfl⟩
    · rintro ⟨pre, post, hh⟩
      cases pre with
      | nil => exact Or.inl ⟨post, by simpa using hh⟩
      | cons d pre2 =>
        right
        injection hh with h1 h2
        exact ⟨pre2, post, h2⟩

theorem isPrefixOf_append_left (n : List Char) : ∀ (a b : List Char),
    n.length ≤ a.length → n.isPrefixOf (a ++ b) = n.isPrefixOf a := by
  induction n with
  | nil => intro a b _; simp [List.isPrefixOf]
  | cons x xs ih =>
    intro a b hlen
    cases a with
    | nil => simp at hlen
    | cons y ys =>
      simp only [List.cons_append, List.isPrefixOf, List.append_eq]
      rw [ih ys b (by simpa using hlen)]

theorem isPrefixOf_split (a : List Char) : ∀ (n b : List Char),
    a.length ≤ n.length → n.isPrefixOf (a ++ b) = true → a.isPrefixOf n = true := by
  induction a with
  | nil => intro n b _ _; simp [List.isPrefixOf]
  | cons x xs ih =>
    intro n b hlen hp
    cases n with
    | nil => simp at hlen
    | cons y ys =>
      simp only [List.cons_append, List.isPrefixOf, Bool.and_eq_true, beq_iff_eq] at hp ⊢
      obtain ⟨rfl, hp2⟩ := hp
      exact ⟨rfl, ih ys b (by simpa using hlen) hp2⟩

theorem passes_nil : Passes [] := fun l => by simp

theorem passes_append {a b : List Char} (ha : Passes a) (hb : Passes b) :
    Passes (a ++ b) := fun l => by
  rw [List.append_assoc, ha (b ++ l), hb l]

theorem passes_ltFree : ∀ s : List Char, '<' ∉ s → Passes s := by
  intro s
  induction s with
  | nil => intro _; exact passes_nil
  | cons c t ih =>
    intro h l
    have hc : ('<' : Char) ≠ c := fun hh => h (hh ▸ List.mem_cons_self c t)
    have ht : '<' ∉ t := fun hm => h (List.mem_cons_of_mem _ hm)
    show containsSub (c :: (t ++ l)) scriptTag = containsSub l scriptTag
    simp only [containsSub, scriptTag, List.isPrefixOf, beq_eq_false_iff_ne.mpr hc,
      Bool.false_and, Bool.false_or]
    exact ih ht l

theorem passes_frag : ∀ F : List Char, fragOk F = true → Passes F := by
  intro F
  induction F with
  | nil => intro _; exact passes_nil
  | cons c rest ih =>
    intro h l
    simp only [fragOk, Bool.and_eq_true] at h
    obtain ⟨h1, h2⟩ := h
    show containsSub (c :: (rest ++ l)) scriptTag = containsSub l scriptTag
    have hpf : scriptTag.isPrefixOf (c :: (rest ++ l)) = false := by
      by_cases hlen : scriptTag.length ≤ (c :: rest).length
      · rw [if_pos hlen, Bool.not_eq_true'] at h1
        have heq := isPrefixOf_append_left scriptTag (c :: rest) l hlen
        rw [show c :: (rest ++ l) = (c :: rest) ++ l from rfl, heq]
        exact h1
      · rw [if_neg hlen, Bool.not_eq_true'] at h1
        by_contra hcon
        rw [Bool.not_eq_false] at hcon
        have : (c :: rest).isPrefixOf scriptTag = true :=
          isPrefixOf_split (c :: rest) scriptTag l (by omega) (by simpa using hcon)
        rw [this] at h1
        exact Bool.true_eq_false.mp h1
    simp only [containsSub, hpf, Bool.false_or]
    exact ih h2 l

theorem strData_append (a b : String) : (a ++ b).data = a.data ++ b.data := rfl

theorem passesS_append {a b : String} (ha : PassesS a) (hb : PassesS b) :
    PassesS (a ++ b) := by
  unfold PassesS at *
  rw [strData_append]
  exact passes_append ha hb

theorem passesS_ltFree {s : String} (h : '<' ∉ s.data) : PassesS s :=
  passes_ltFree _ h

theorem passesS_frag {s : String} (h : fragOk s.data = true) : PassesS s :=
  passes_frag _ h

theorem scriptFree_of_passesS {s : String} (h : PassesS s) : scriptFree s := by
  have h0 := h []
  rw [List.append_nil] at h0
  show containsSub s.data scriptTag = false
  rw [h0]
  decide

theorem mem_replaceAllChar {x needle : Char} {rep : List Char} :
    ∀ {l : List Char}, x ∈ replaceAllChar needle rep l → x ∈ rep ∨ (x ∈ l ∧ x ≠ needle) := by
  intro l
  induction l with
  | nil => intro hx; simp [replaceAllChar] at hx
  | cons c t ih =>
    intro hx
    simp only [replaceAllChar, List.mem_append] at hx
    rcases hx with h1 | h2
    · by_cases hc : c = needle
      · rw [if_pos hc] at h1; exact Or.inl h1
      · rw [if_neg hc] at h1
        simp only [List.mem_singleton] at h1
        refine Or.inr ⟨?_, ?_⟩
        · rw [h1]; exact List.mem_cons_self c t
        · rw [h1]; exact hc
    · rcases ih h2 with h | ⟨hm, hne⟩
      · exact Or.inl h
      · exact Or.inr ⟨List.mem_cons_of_mem _ hm, hne⟩

theorem no_lt_escapeHtml (s : String) : '<' ∉ (escapeHtml s).data := by
  intro hmem
  have hmem5 : '<' ∈ replaceAllChar aposChar ("&#039;".data)
      (replaceAllChar quoteChar ("&quot;".data)
        (replaceAllChar '>' ("&gt;".data)
          (replaceAllChar '<' ("&lt;".data)
            (replaceAllChar '&' ("&amp;".data) s.data)))) := hmem
  rcases mem_replaceAllChar hmem5 with h5 | ⟨h4, _⟩
  · exact absurd h5 (by decide)
  rcases mem_replaceAllChar h4 with h4r | ⟨h3, _⟩
  · exact absurd h4r (by decide)
  rcases mem_replaceAllChar h3 with h3r | ⟨h2, _⟩
  · exact absurd h3r (by decide)
  rcases mem_replaceAllChar h2 with h2r | ⟨_, hne⟩
  · exact absurd h2r (by decide)
  · exact hne rfl

theorem passesS_escape (s : String) : PassesS (escapeHtml s) :=
  passes_ltFree _ (no_lt_escapeHtml s)

theorem digitChar_ne_lt (d : Nat) : digitChar d ≠ '<' := by
  unfold digitChar
  split <;> decide

theorem natDigitsAux_no_lt (fuel : Nat) : ∀ n : Nat, '<' ∉ natDigitsAux fuel n := by
  induction fuel with
  | zero => intro n h; simp [natDigitsAux] at h
  | succ fuel ih =>
    intro n h
    unfold natDigitsAux at h
    by_cases hn : n < 10
    · rw [if_pos hn] at h
      simp only [List.mem_singleton] at h
      exact digitChar_ne_lt n h.symm
    · rw [if_neg hn] at h
      rcases List.mem_append.mp h with h1 | h2
      · exact ih (n / 10) h1
      · simp only [List.mem_singleton] at h2
        exact digitChar_ne_lt _ h2.symm

theorem passesS_natToString (n : Nat) : PassesS (natToString n) :=
  passes_ltFree _ (natDigitsAux_no_lt (n + 1) n)

theorem passesS_joinSep (sep : String) : ∀ parts : List String, PassesS sep →
    (∀ p ∈ parts, PassesS p) → PassesS (joinSep sep parts)
  | [], _, _ => passes_nil
  | [x], _, hp => hp x (by simp)
  | x :: y :: ys, hs, hp => by
    show PassesS (x ++ sep ++ joinSep sep (y :: ys))
    exact passesS_append (passesS_append (hp x (by simp)) hs)
      (passesS_joinSep sep (y :: ys) hs
        (fun p hm => hp p (List.mem_cons_of_mem _ hm)))

theorem passesS_renderTag (t : String) : PassesS (renderTag t) := by
  unfold renderTag
  exact passesS_append (passesS_append (passesS_frag (by decide)) (passesS_escape t))
    (passesS_frag (by decide))

theorem passesS_sq : PassesS sq := passesS_ltFree (by decide)

theorem passesS_anchor (url label : String) (hu : '<' ∉ url.data)
    (hl : '<' ∉ label.data) : PassesS (anchor url label) := by
  unfold anchor
  have s1 := passesS_append (passesS_frag (s := "<a href=") (by decide)) passesS_sq
  have s2 := passesS_append s1 (passesS_ltFree hu)
  have s3 := passesS_append s2 passesS_sq
  have s4 := passesS_append s3 (passesS_ltFree (s := " target=") (by decide))
  have s5 := passesS_append s4 passesS_sq
  have s6 := passesS_append s5 (passesS_ltFree (s := "_blank") (by decide))
  have s7 := passesS_append s6 passesS_sq
  have s8 := passesS_append s7 (passesS_ltFree (s := " rel=") (by decide))
  have s9 := passesS_append s8 passesS_sq
  have s10 := passesS_append s9 (passesS_ltFree (s := "noreferrer") (by decide))
  have s11 := passesS_append s10 passesS_sq
  have s12 := passesS_append s11 (passesS_ltFree (s := ">") (by decide))
  have s13 := passesS_append s12 (passesS_ltFree hl)
  exact passesS_append s13 (passesS_frag (s := "</a>") (by decide))

theorem passesS_strong (s : String) : PassesS (strong s) := by
  unfold strong
  exact passesS_append (passesS_append (passesS_frag (by decide)) (passesS_escape s))
    (passesS_frag (by decide))

theorem passesS_projectLine (idx : Nat) (p : Project) (h1 : '<' ∉ p.demoUrl.data)
    (h2 : '<' ∉ p.sourceUrl.data) : PassesS (projectLine idx p) := by
  unfold projectLine
  have s1 := passesS_append (passesS_natToString idx) (passesS_ltFree (s := ". ") (by decide))
  have s2 := passesS_append s1 (passesS_frag (s := spanOpen "title") (by decide))
  have s3 := passesS_append s2 (passesS_escape p.title)
  have s4 := passesS_append s3 (passesS_frag (s := spanClose) (by decide))
  have s5 := passesS_append s4 (passesS_ltFree (s := " — ") (by decide))
  have s6 := passesS_append s5 (passesS_escape p.description)
  have s7 := passesS_append s6 (passesS_ltFree (s := " ") (by decide))
  have s8 := passesS_append s7 (passesS_frag (s := spanOpen "dim") (by decide))
  have s9 := passesS_append s8
    (passesS_joinSep " " (p.tech.map renderTag) (passesS_ltFree (by decide))
      (fun q hq => by
        obtain ⟨t, _, rfl⟩ := List.mem_map.mp hq
        exact passesS_renderTag t))
  have s10 := passesS_append s9 (passesS_frag (s := spanClose) (by decide))
  have s11 := passesS_append s10 (passesS_ltFree (s := " \n ") (by decide))
  have s12 := passesS_append s11 (passesS_anchor p.demoUrl "demo" h1 (by decide))
  have s13 := passesS_append s12 (passesS_ltFree (s := " · ") (by decide))
  exact passesS_append s13 (passesS_anchor p.sourceUrl "source" h2 (by decide))

theorem passesS_intToString (n : Int) : PassesS (intToString n) := by
  unfold intToString
  split_ifs
  · exact passesS_append (passesS_ltFree (s := "-") (by decide)) (passesS_natToString _)
  · exact passesS_natToString _

/-- Every line the `open` handler prints is free of the literal
`<script>`: the usage and not-found lines are fixed text plus decimal
digits, and the confirmation line interpolates the project title only
through `escapeHtml`. -/
theorem openCmd_lines_scriptFree (ps : List Project) (rh : Option String) :
    ∀ line ∈ (openCmd ps rh).1, scriptFree line := by
  unfold openCmd
  cases hp : jsParseInt (rh.getD "") with
  | none =>
    show ∀ line ∈ ([openUsage] : List String), scriptFree line
    intro line hline
    simp only [List.mem_singleton] at hline
    subst hline
    show containsSub openUsage.data scriptTag = false
    decide
  | some n =>
    show ∀ line ∈ (if n = 0 then ([openUsage], ([] : List Effect))
          else
            match (if 1 ≤ n then ps.get? (n - 1).toNat else none) with
            | none => (["Project " ++ intToString n ++ " not found."], [])
            | some p => (["Opening " ++ escapeHtml p.title ++ "..."], [Effect.openUrl p.demoUrl])).1,
        scriptFree line
    by_cases h0 : n = 0
    · rw [if_pos h0]
      intro line hline
      simp only [List.mem_singleton] at hline
      subst hline
      show containsSub openUsage.data scriptTag = false
      decide
    · rw [if_neg h0]
      cases hq : (if 1 ≤ n then ps.get? (n - 1).toNat else none) with
      | none =>
        show ∀ line ∈ ["Project " ++ intToString n ++ " not found."], scriptFree line
        intro line hline
        simp only [List.mem_singleton] at hline
        subst hline
        exact scriptFree_of_passesS (passesS_append
          (passesS_append (passesS_ltFree (s := "Project ") (by decide))
            (passesS_intToString n))
          (passesS_ltFree (s := " not found.") (by decide)))
      | some p =>
        show ∀ line ∈ ["Opening " ++ escapeHtml p.title ++ "..."], scriptFree line
        intro line hline
        simp only [List.mem_singleton] at hline
        subst hline
        exact scriptFree_of_passesS (passesS_append
          (passesS_append (passesS_ltFree (s := "Opening ") (by decide))
            (passesS_escape p.title))
          (passesS_ltFree (s := "...") (by decide)))

theorem passesS_searchResultLine (i : Nat) (p : Project) :
    PassesS (searchResultLine i p) := by
  unfold searchResultLine
  have s1 := passesS_append (passesS_natToString (i + 1))
    (passesS_ltFree (s := ". ") (by decide))
  have s2 := passesS_append s1 (passesS_frag (s := spanOpen "title") (by decide))
  have s3 := passesS_append s2 (passesS_escape p.title)
  have s4 := passesS_append s3 (passesS_frag (s := spanClose) (by decide))
  have s5 := passesS_append s4 (passesS_ltFree (s := " — ") (by decide))
  exact passesS_append s5 (passesS_escape p.description)

theorem lookup_eq_none {β : Type} (l : List (String × β)) (a : String)
    (h : a ∉ l.map Prod.fst) : List.lookup a l = none := by
  induction l with
  | nil => rfl
  | cons kv t ih =>
    obtain ⟨k, v⟩ := kv
    simp only [List.map_cons, List.mem_cons] at h
    push_neg at h
    obtain ⟨h1, h2⟩ := h
    simp only [List.lookup]
    rw [beq_eq_false_iff_ne.mpr h1]
    exact ih h2

/-- Every branch of the dispatcher leaves the history, the history cursor
and the input buffer of the state it is given untouched: commands only
print output blocks, clear the scrollback, change the theme, or emit
effects. -/
theorem runCmd_fixed (clipOk : Bool) (name : String) (rest : List String)
    (st : TermState) :
    (runCmd clipOk name rest st).1.history = st.history ∧
    (runCmd clipOk name rest st).1.historyIdx = st.historyIdx ∧
    (runCmd clipOk name rest st).1.input = st.input := by
  unfold runCmd
  by_cases h1 : lowerStr name = "/help"
  · simp only [if_pos h1]
    refine ⟨?_, ?_, ?_⟩ <;> (split <;> rfl)
  simp only [if_neg h1]
  by_cases h2 : lowerStr name = "/projects"
  · simp only [if_pos h2]; exact ⟨rfl, rfl, rfl⟩
  simp only [if_neg h2]
  by_cases h3 : lowerStr name = "open"
  · simp only [if_pos h3]; exact ⟨rfl, rfl, rfl⟩
  simp only [if_neg h3]
  by_cases h4 : lowerStr name = "/about"
  · simp only [if_pos h4]; exact ⟨rfl, rfl, rfl⟩
  simp only [if_neg h4]
  by_cases h5 : lowerStr name = "/contact"
  · simp only [if_pos h5]; exact ⟨rfl, rfl, rfl⟩
  simp only [if_neg h5]
  by_cases h6 : lowerStr name = "copy"
  · simp only [if_pos h6]
    split_ifs <;> exact ⟨rfl, rfl, rfl⟩
  simp only [if_neg h6]
  by_cases h7 : lowerStr name = "/resume"
  · simp only [if_pos h7]; exact ⟨rfl, rfl, rfl⟩
  simp only [if_neg h7]
  by_cases h8 : lowerStr name = "/theme"
  · simp only [if_pos h8]
    refine ⟨?_, ?_, ?_⟩ <;>
      (split <;> first | rfl | (split_ifs <;> rfl))
  simp only [if_neg h8]
  by_cases h9 : lowerStr name = "/clear"
  · simp only [if_pos h9]; refine ⟨?_, ?_, ?_⟩ <;> trivial
  simp only [if_neg h9]
  by_cases h10 : lowerStr name = "cls"
  · simp only [if_pos h10]; refine ⟨?_, ?_, ?_⟩ <;> trivial
  simp only [if_neg h10]
  by_cases h11 : lowerStr name = "search"
  · simp only [if_pos h11]; exact ⟨rfl, rfl, rfl⟩
  simp only [if_neg h11]
  exact ⟨rfl, rfl, rfl⟩

/-- Claim C1 (amended): for every submitted line that is non-blank after
trimming, the interpreter appends the trimmed line as one entry at the
end of the history, resets the history cursor to -1 and clears the input
buffer, and the command dispatcher then runs on that already-updated
state (so all three happen before the handler runs and before any output
is produced); no handler alters them afterwards. -/
theorem submit_appends_history (clipOk : Bool) (raw : String) (st : TermState)
    (h : trimStr raw ≠ "") :
    handleCommand clipOk raw st =
      runCmd clipOk ((splitWs (trimStr raw)).headD "") (splitWs (trimStr raw)).tail
        { st with history := st.history ++ [trimStr raw], historyIdx := -1, input := "" }
    ∧ (handleCommand clipOk raw st).1.history = st.history ++ [trimStr raw]
    ∧ (handleCommand clipOk raw st).1.historyIdx = -1
    ∧ (handleCommand clipOk raw st).1.input = "" := by
  have he : handleCommand clipOk raw st =
      runCmd clipOk ((splitWs (trimStr raw)).headD "") (splitWs (trimStr raw)).tail
        { st with history := st.history ++ [trimStr raw], historyIdx := -1, input := "" } := by
    unfold handleCommand
    rw [if_neg h]
  refine ⟨he, ?_, ?_, ?_⟩ <;> rw [he]
  · exact (runCmd_fixed _ _ _ _).1
  · exact (runCmd_fixed _ _ _ _).2.1
  · exact (runCmd_fixed _ _ _ _).2.2

theorem submit_appends_history_witness :
    trimStr "/help" ≠ "" ∧
    (handleCommand true "/help" initState).1.history =
      initState.history ++ [trimStr "/help"] :=
  ⟨by decide, (submit_appends_history true "/help" initState (by decide)).2.1⟩

/-- Claim C1, counterexample to the original wording: a line with
trailing whitespace is recorded trimmed, not verbatim; and a non-empty
all-blank line is not recorded at all. -/
theorem submit_appends_history_cex :
    (handleCommand true "hi " initState).1.history ≠ ["hi "] ∧
    (handleCommand true " " initState).1.history = [] := by
  constructor <;> decide

/-- Claim C2 (amended): with the cursor browsing at position `i`,
Down-arrow at the newest entry keeps the cursor at the newest entry and
puts that entry in the input buffer (it does not return to -1 and does
not clear the input); Down-arrow at an earlier entry increments the
cursor and replaces the input buffer with that entry. -/
theorem arrow_down_spec (st : TermState) (i : Nat) (hidx : st.historyIdx = (i : Int))
    (hlt : i < st.history.length) :
    (i + 1 = st.history.length →
      arrowDown st = { st with historyIdx := (i : Int),
                               input := (st.history.get? i).getD "" })
    ∧ (i + 1 < st.history.length →
      arrowDown st = { st with historyIdx := ((i + 1 : Nat) : Int),
                               input := (st.history.get? (i + 1)).getD "" }) := by
  have hlen0 : ¬ st.history.length = 0 := by omega
  have hne : ¬ st.historyIdx = -1 := by rw [hidx]; omega
  constructor
  · intro hnew
    have hmin : min ((st.history.length : Int) - 1) (st.historyIdx + 1) = (i : Int) := by
      rw [hidx]; omega
    simp only [arrowDown, if_neg hlen0, if_neg hne, hmin]
    rw [if_neg (by omega : ¬ (i : Int) = -1)]
    rw [Int.toNat_natCast i]
  · intro hlater
    have hmin : min ((st.history.length : Int) - 1) (st.historyIdx + 1) = ((i + 1 : Nat) : Int) := by
      rw [hidx]; omega
    simp only [arrowDown, if_neg hlen0, if_neg hne, hmin]
    rw [if_neg (by omega : ¬ ((i + 1 : Nat) : Int) = -1)]
    rw [Int.toNat_natCast (i + 1)]

theorem arrow_down_spec_witness :
    arrowDown { history := ["a", "b"], historyIdx := ((0 : Nat) : Int), input := "a",
                output := [], theme := "dark" } =
      { history := ["a", "b"], historyIdx := ((0 + 1 : Nat) : Int),
        input := ((["a", "b"].get? (0 + 1)).getD ""), output := [], theme := "dark" } :=
  (arrow_down_spec _ 0 rfl (by decide)).2 (by decide)

/-- Claim C2, counterexample to the original wording: with history
`["a"]` and the cursor browsing the newest entry (0), Down-arrow does
not return the cursor to -1 with a cleared input buffer. -/
theorem arrow_down_cex :
    ¬ ((arrowDown { history := ["a"], historyIdx := 0, input := "a", output := [],
                    theme := "dark" }).historyIdx = -1
       ∧ (arrowDown { history := ["a"], historyIdx := 0, input := "a", output := [],
                      theme := "dark" }).input = "") := by
  decide

/-- Claim C9: `/clear` and its alias `cls` empty the scrollback, keep the
history (beyond the one appended submission), produce no output lines of
their own and trigger no effect. -/
theorem clear_command_spec (st : TermState) (clipOk : Bool) :
    handleCommand clipOk "/clear" st =
      ({ st with history := st.history ++ ["/clear"], historyIdx := -1, input := "",
                 output := [] }, [])
    ∧ handleCommand clipOk "cls" st =
      ({ st with history := st.history ++ ["cls"], historyIdx := -1, input := "",
                 output := [] }, []) := by
  constructor <;> rfl

/-- Claim C10 (amended): the `/help` topic argument is looked up by plain
property access on the details record with its exact keys (leading slash
included, case-sensitive); every non-empty argument that is neither one
of the seven keys nor the name of an inherited `Object.prototype` member
gets the no-details line (for example `/PROJECTS` or `projects`), even
though the named command itself is dispatchable case-insensitively; an
argument naming an inherited `Object.prototype` member (`constructor`,
`toString`, `__proto__`, ...) hits the inherited non-string member
instead, the handler throws inside `escapeHtml`, and nothing at all is
printed. -/
theorem help_topic_exact_match :
    (∀ arg : String, arg ≠ "" → arg ∉ helpDetails.map Prod.fst →
      arg ∉ objectProtoKeys →
      helpCmdLines arg = some [escapeHtml ("No details for " ++ sq ++ arg ++ sq ++ ".")])
    ∧ helpDetails.map Prod.fst =
        ["/help", "/projects", "/about", "/contact", "/resume", "/theme", "/clear"]
    ∧ (∀ arg ∈ objectProtoKeys, helpCmdLines arg = none)
    ∧ (∀ (st : TermState) (clipOk : Bool) (arg : String), arg ∈ objectProtoKeys →
        runCmd clipOk "/help" [arg] st = (st, []))
    ∧ helpCmdLines "/PROJECTS" =
        some [escapeHtml ("No details for " ++ sq ++ "/PROJECTS" ++ sq ++ ".")]
    ∧ helpCmdLines "projects" =
        some [escapeHtml ("No details for " ++ sq ++ "projects" ++ sq ++ ".")]
    ∧ runCmd true "/PROJECTS" [] initState = runCmd true "/projects" [] initState
    ∧ (runCmd true "/help" ["/PROJECTS"] initState).1.output =
        [[escapeHtml ("No details for " ++ sq ++ "/PROJECTS" ++ sq ++ ".")]] := by
  refine ⟨?_, by decide, ?_, ?_, by decide, by decide, by decide, by decide⟩
  · intro arg hne hnm hnp
    unfold helpCmdLines
    rw [if_neg hne, lookup_eq_none _ _ hnm]
    have hc : objectProtoKeys.contains arg = false := by
      cases hc : objectProtoKeys.contains arg
      · rfl
      · exact absurd (List.mem_of_elem_eq_true hc) hnp
    show (if objectProtoKeys.contains arg = true then none
          else some [escapeHtml ("No details for " ++ sq ++ arg ++ sq ++ ".")]) = _
    rw [hc, if_neg (by decide : ¬ (false = true))]
  · intro arg hm
    fin_cases hm <;> decide
  · intro st clipOk arg hm
    fin_cases hm <;> (unfold runCmd; rw [if_pos (by decide)]; rfl)

theorem help_topic_exact_match_witness :
    helpCmdLines "/THEME" =
      some [escapeHtml ("No details for " ++ sq ++ "/THEME" ++ sq ++ ".")] :=
  help_topic_exact_match.1 "/THEME" (by decide) (by decide) (by decide)

/-- Claim C10, counterexample to the original wording: `/help constructor`
does not print the no-details line; the lookup hits the inherited
`Object.prototype` member, `escapeHtml` throws on the non-string, and no
output block is produced. -/
theorem help_proto_cex :
    (runCmd true "/help" ["constructor"] initState).1.output = []
    ∧ (runCmd true "/help" ["constructor"] initState).1.output ≠
        [[escapeHtml ("No details for " ++ sq ++ "constructor" ++ sq ++ ".")]] := by
  constructor <;> decide

/-- Claim C8: `copy` with an argument lowercasing to `email` makes
exactly one clipboard-write call with the configured email and prints one
line: the confirmation when the capability resolves, the blocked-clipboard
line when it rejects (the rejection is absorbed by the handler, which
still returns normally); any other argument prints the usage line and
makes no capability call. -/
theorem copy_command_spec :
    (∀ (st : TermState) (rest : List String) (clipOk : Bool),
      lowerStr (joinSep " " rest) = "email" →
      runCmd clipOk "copy" rest st =
        (print st [if clipOk then "Email copied to clipboard."
                   else "Copy failed — your browser blocked clipboard access."],
         [Effect.clipboardWrite CONFIG.email]))
    ∧ (∀ (st : TermState) (rest : List String) (clipOk : Bool),
      lowerStr (joinSep " " rest) ≠ "email" →
      runCmd clipOk "copy" rest st = (print st ["Usage: copy email"], []))
    ∧ runCmd false "copy" ["email"] initState =
        (print initState ["Copy failed — your browser blocked clipboard access."],
         [Effect.clipboardWrite CONFIG.email]) := by
  refine ⟨?_, ?_, by decide⟩
  · intro st rest clipOk h
    unfold runCmd
    rw [if_neg (by decide), if_neg (by decide), if_neg (by decide), if_neg (by decide),
      if_neg (by decide), if_pos (by decide), if_pos h]
  · intro st rest clipOk h
    unfold runCmd
    rw [if_neg (by decide), if_neg (by decide), if_neg (by decide), if_neg (by decide),
      if_neg (by decide), if_pos (by decide), if_neg h]

theorem copy_command_spec_witness :
    runCmd false "copy" ["EMAIL"] initState =
      (print initState [if false then "Email copied to clipboard."
                        else "Copy failed — your browser blocked clipboard access."],
       [Effect.clipboardWrite CONFIG.email]) :=
  copy_command_spec.1 initState ["EMAIL"] false (by decide)

/-- Claim C7 (amended): for every supported theme name (matched
case-insensitively) `/theme` sets the session theme to the lowercased
name, prints the confirmation, and the serialized stored value reads
back to the same theme (serialize-then-parse round-trips); a legacy
theme name stored as a bare string fails `JSON.parse` and is accepted on
read as the raw string (a bare numeric string instead parses as a
number, not a string); a missing theme argument, or an argument that is
neither a supported theme nor the name of an inherited
`Object.prototype` member, prints the usage line and changes nothing; an
argument lowercasing to an inherited `Object.prototype` member name
(such as `constructor` or `__proto__`) passes the JS `in` check, is set
as the theme and prints a confirmation. -/
theorem theme_command_spec :
    (∀ (st : TermState) (clipOk : Bool) (s t : String),
      lowerStr s = t → t ∈ themeNames →
      runCmd clipOk "/theme" [s] st =
        ({ st with theme := t,
                   output := st.output ++ [["Theme set to " ++ t ++ "."]] }, [])
      ∧ readStoredTheme (jsonStringifyString t) = some t)
    ∧ (∀ t ∈ themeNames, readStoredTheme t = some t)
    ∧ (∀ (st : TermState) (clipOk : Bool),
        runCmd clipOk "/theme" [] st = (print st [themeUsage], []))
    ∧ (∀ (st : TermState) (clipOk : Bool) (s : String),
        themeNames.contains (lowerStr s) = false →
        objectProtoKeys.contains (lowerStr s) = false →
        runCmd clipOk "/theme" [s] st = (print st [themeUsage], []))
    ∧ (∀ (st : TermState) (clipOk : Bool) (s t : String),
        lowerStr s = t → t ∈ objectProtoKeys →
        runCmd clipOk "/theme" [s] st =
          ({ st with theme := t,
                     output := st.output ++ [["Theme set to " ++ t ++ "."]] }, [])) := by
  refine ⟨?_, ?_, ?_, ?_, ?_⟩
  · intro st clipOk s t hlow ht
    have hc : themeNames.contains t = true := List.elem_eq_true_of_mem ht
    constructor
    · unfold runCmd
      rw [if_neg (by decide), if_neg (by decide), if_neg (by decide), if_neg (by decide),
        if_neg (by decide), if_neg (by decide), if_neg (by decide), if_pos (by decide)]
      show (if themeNames.contains (lowerStr s) || objectProtoKeys.contains (lowerStr s) then
              (print { st with theme := lowerStr s }
                ["Theme set to " ++ lowerStr s ++ "."], ([] : List Effect))
            else (print st [themeUsage], [])) = _
      rw [hlow]
      rw [if_pos (show (themeNames.contains t || objectProtoKeys.contains t) = true by
        rw [hc, Bool.true_or])]
      rfl
    · simp only [themeNames, List.mem_cons, List.not_mem_nil, or_false] at ht
      rcases ht with rfl | rfl | rfl | rfl <;> decide
  · intro t ht
    fin_cases ht <;> decide
  · intro st clipOk
    unfold runCmd
    rw [if_neg (by decide), if_neg (by decide), if_neg (by decide), if_neg (by decide),
      if_neg (by decide), if_neg (by decide), if_neg (by decide), if_pos (by decide)]
    rfl
  · intro st clipOk s hf1 hf2
    unfold runCmd
    rw [if_neg (by decide), if_neg (by decide), if_neg (by decide), if_neg (by decide),
      if_neg (by decide), if_neg (by decide), if_neg (by decide), if_pos (by decide)]
    show (if themeNames.contains (lowerStr s) || objectProtoKeys.contains (lowerStr s) then
            (print { st with theme := lowerStr s }
              ["Theme set to " ++ lowerStr s ++ "."], ([] : List Effect))
          else (print st [themeUsage], [])) = _
    have hnc : ¬ ((themeNames.contains (lowerStr s) || objectProtoKeys.contains (lowerStr s)) = true) := by
      rw [hf1, hf2]
      decide
    rw [if_neg hnc]
  · intro st clipOk s t hlow ht
    have hc : objectProtoKeys.contains t = true := List.elem_eq_true_of_mem ht
    unfold runCmd
    rw [if_neg (by decide), if_neg (by decide), if_neg (by decide), if_neg (by decide),
      if_neg (by decide), if_neg (by decide), if_neg (by decide), if_pos (by decide)]
    show (if themeNames.contains (lowerStr s) || objectProtoKeys.contains (lowerStr s) then
            (print { st with theme := lowerStr s }
              ["Theme set to " ++ lowerStr s ++ "."], ([] : List Effect))
          else (print st [themeUsage], [])) = _
    rw [hlow]
    rw [if_pos (show (themeNames.contains t || objectProtoKeys.contains t) = true by
      rw [hc, Bool.or_true])]
    rfl

theorem theme_command_spec_witness :
    (runCmd true "/theme" ["LIGHT"] initState =
      ({ initState with theme := "light",
                        output := initState.output ++ [["Theme set to " ++ "light" ++ "."]] }, [])
     ∧ readStoredTheme (jsonStringifyString "light") = some "light")
    ∧ runCmd true "/theme" ["CONSTRUCTOR"] initState =
        ({ initState with theme := "constructor",
                          output := initState.output ++ [["Theme set to " ++ "constructor" ++ "."]] }, []) :=
  ⟨theme_command_spec.1 initState true "LIGHT" "light" (by decide) (by decide),
   theme_command_spec.2.2.2.2 initState true "CONSTRUCTOR" "constructor" (by decide) (by decide)⟩

/-- Claim C7, counterexample to the original wording: `/theme constructor`
is not rejected with the usage line; `constructor` is an inherited
`Object.prototype` member, so the JS `in` check passes and the theme is
set to `constructor` with a confirmation, and `readStoredTheme "123"`
does not fall back to the raw string, because `JSON.parse` accepts the
number. -/
theorem theme_proto_cex :
    (runCmd true "/theme" ["constructor"] initState).1.theme = "constructor"
    ∧ (runCmd true "/theme" ["constructor"] initState).1.output =
        [["Theme set to constructor."]]
    ∧ runCmd true "/theme" ["constructor"] initState ≠ (print initState [themeUsage], [])
    ∧ readStoredTheme "123" ≠ some "123" := by
  refine ⟨by decide, by decide, by decide, by decide⟩

/-- Claim C3 (amended): for the `open` command, a missing argument, an
argument whose leading-integer parse fails (non-numeric), and the
argument 0 each produce the usage message; a parsed integer that is
negative (such as -1) or greater than the project count produces the
line `Project n not found.` (not the usage message); a valid n between 1
and the project count triggers exactly one open-URL capability call with
the nth project demoUrl and prints the `Opening <title>...` confirmation. -/
theorem open_command_spec :
    (∀ ps : List Project, openCmd ps (some "0") = ([openUsage], []))
    ∧ (∀ (ps : List Project) (t : String), jsParseInt t = none →
        openCmd ps (some t) = ([openUsage], []))
    ∧ (∀ ps : List Project, openCmd ps none = ([openUsage], []))
    ∧ (∀ (ps : List Project) (t : String) (n : Int), jsParseInt t = some n →
        (n < 0 ∨ (ps.length : Int) < n) →
        openCmd ps (some t) = (["Project " ++ intToString n ++ " not found."], []))
    ∧ (∀ (ps : List Project) (t : String) (n : Int), jsParseInt t = some n →
        1 ≤ n → n ≤ (ps.length : Int) →
        ∃ p, ps.get? (n - 1).toNat = some p ∧
          openCmd ps (some t) =
            (["Opening " ++ escapeHtml p.title ++ "..."], [Effect.openUrl p.demoUrl]))
    ∧ handleCommand true "open 2" initState =
        ({ initState with history := ["open 2"],
                          output := [["Opening danger ahead..."]] }, [Effect.openUrl "#"]) := by
  refine ⟨fun ps => rfl, ?_, fun ps => rfl, ?_, ?_, by decide⟩
  · intro ps t hp
    unfold openCmd
    simp only [Option.getD_some]
    rw [hp]
  · intro ps t n hp hout
    unfold openCmd
    simp only [Option.getD_some]
    rw [hp]
    show (if n = 0 then ([openUsage], ([] : List Effect))
          else
            match (if 1 ≤ n then ps.get? (n - 1).toNat else none) with
            | none => (["Project " ++ intToString n ++ " not found."], [])
            | some p => (["Opening " ++ escapeHtml p.title ++ "..."], [Effect.openUrl p.demoUrl])) = _
    rw [if_neg (by omega : ¬ n = 0)]
    rcases hout with hneg | hgt
    · rw [if_neg (by omega : ¬ 1 ≤ n)]
    · rw [if_pos (by omega : 1 ≤ n),
        List.get?_eq_none.mpr (by omega : ps.length ≤ (n - 1).toNat)]
  · intro ps t n hp h1 h2
    have hlt : (n - 1).toNat < ps.length := by omega
    cases hq : ps.get? (n - 1).toNat with
    | none => exact absurd (List.get?_eq_none.mp hq) (by omega)
    | some p =>
      refine ⟨p, rfl, ?_⟩
      unfold openCmd
      simp only [Option.getD_some]
      rw [hp]
      show (if n = 0 then ([openUsage], ([] : List Effect))
            else
              match (if 1 ≤ n then ps.get? (n - 1).toNat else none) with
              | none => (["Project " ++ intToString n ++ " not found."], [])
              | some p => (["Opening " ++ escapeHtml p.title ++ "..."], [Effect.openUrl p.demoUrl])) = _
      rw [if_neg (by omega : ¬ n = 0), if_pos h1, hq]

theorem open_command_spec_witness :
    ∃ p, CONFIG.projects.get? ((3 : Int) - 1).toNat = some p ∧
      openCmd CONFIG.projects (some "3") =
        (["Opening " ++ escapeHtml p.title ++ "..."], [Effect.openUrl p.demoUrl]) :=
  open_command_spec.2.2.2.2.1 CONFIG.projects "3" 3 (by decide) (by decide) (by decide)

/-- Claim C3, counterexample to the original wording: `open -1` does not
print the usage message; it prints `Project -1 not found.` (in JS, -1 is
truthy, so the falsy-parse usage guard does not fire). -/
theorem open_command_cex :
    (handleCommand true "open -1" initState).1.output = [["Project -1 not found."]]
    ∧ (handleCommand true "open -1" initState).1.output ≠ [[openUsage]] := by
  constructor <;> decide

theorem jsPageArg_pos {t : String} {n : Int} (hp : jsParseInt t = some n)
    (h1 : 1 ≤ n) : jsPageArg (some t) = n := by
  unfold jsPageArg
  simp only [Option.getD_some]
  rw [hp]
  show max 1 (if n = 0 then 1 else n) = n
  rw [if_neg (by omega : ¬ n = 0)]
  exact max_eq_right h1

theorem jsPageArg_clamped {t : String} {n : Int} (hp : jsParseInt t = some n)
    (h1 : n ≤ 1) : jsPageArg (some t) = 1 := by
  unfold jsPageArg
  simp only [Option.getD_some]
  rw [hp]
  show max 1 (if n = 0 then 1 else n) = 1
  by_cases h0 : n = 0
  · rw [if_pos h0]; exact max_self 1
  · rw [if_neg h0]; exact max_eq_left h1

theorem jsPageArg_nan {t : String} (hp : jsParseInt t = none) :
    jsPageArg (some t) = 1 := by
  unfold jsPageArg
  simp only [Option.getD_some]
  rw [hp]
  exact max_self 1

/-- Claim C5: `/projects` defaults its page argument to 1 and clamps
every supplied value to at least 1; page n shows the slice
`drop ((n-1)*size) |> take size` of the project list, each entry carrying
its 1-based global index; a page with no projects prints
`No projects on page n.`; in particular page 1 with page size 5 and at
least 5 projects prints exactly the first 5 projects with global indices
1 through 5. -/
theorem projects_command_spec :
    (∀ (ps : List Project) (sz : Nat),
      projectsLines ps sz none = projectsLines ps sz (some "1"))
    ∧ (∀ (ps : List Project) (sz : Nat) (t : String), jsParseInt t = none →
        projectsLines ps sz (some t) = projectsLines ps sz (some "1"))
    ∧ (∀ (ps : List Project) (sz : Nat) (t : String) (n : Int),
        jsParseInt t = some n → n ≤ 1 →
        projectsLines ps sz (some t) = projectsLines ps sz (some "1"))
    ∧ (∀ (ps : List Project) (sz : Nat) (t : String) (n : Int),
        jsParseInt t = some n → 1 ≤ n → ps.length ≤ (n - 1).toNat * sz →
        projectsLines ps sz (some t) = ["No projects on page " ++ intToString n ++ "."])
    ∧ (∀ (ps : List Project) (sz : Nat) (t : String) (n : Int),
        jsParseInt t = some n → 1 ≤ n → 0 < sz → (n - 1).toNat * sz < ps.length →
        projectsLines ps sz (some t) =
          ("Projects (page " ++ intToString n ++ "/"
              ++ natToString (max 1 ((ps.length + sz - 1) / sz)) ++ "):")
            :: (((ps.drop ((n - 1).toNat * sz)).take sz).enum.map
                  (fun ip => projectLine ((n - 1).toNat * sz + ip.1 + 1) ip.2)
                ++ ["Type " ++ sq ++ "open <n>" ++ sq ++ " to open demo in a new tab."]))
    ∧ (∀ (p1 p2 p3 p4 p5 : Project) (rest : List Project),
        projectsLines (p1 :: p2 :: p3 :: p4 :: p5 :: rest) 5 (some "1") =
          ("Projects (page 1/" ++ natToString (max 1 ((rest.length + 9) / 5)) ++ "):")
            :: ([projectLine 1 p1, projectLine 2 p2, projectLine 3 p3,
                 projectLine 4 p4, projectLine 5 p5]
                ++ ["Type " ++ sq ++ "open <n>" ++ sq ++ " to open demo in a new tab."])) := by
  have husage : jsPageArg (some "1") = 1 := by decide
  refine ⟨?_, ?_, ?_, ?_, ?_, ?_⟩
  · intro ps sz
    rfl
  · intro ps sz t hp
    unfold projectsLines
    rw [jsPageArg_nan hp, husage]
  · intro ps sz t n hp hle
    unfold projectsLines
    rw [jsPageArg_clamped hp hle, husage]
  · intro ps sz t n hp h1 hlen
    unfold projectsLines
    rw [jsPageArg_pos hp h1]
    have hdrop : ps.drop ((n - 1).toNat * sz) = [] := List.drop_eq_nil_of_le hlen
    have hempty : ((ps.drop ((n - 1).toNat * sz)).take sz).isEmpty = true := by
      rw [hdrop, List.take_nil]
      rfl
    rw [if_pos hempty]
  · intro ps sz t n hp h1 hsz hlen
    unfold projectsLines
    rw [jsPageArg_pos hp h1]
    have hdropne : ps.drop ((n - 1).toNat * sz) ≠ [] := by
      intro hd
      have := congrArg List.length hd
      rw [List.length_drop] at this
      simp only [List.length_nil] at this
      omega
    have hslice : (ps.drop ((n - 1).toNat * sz)).take sz ≠ [] := by
      intro ht
      rcases List.take_eq_nil_iff.mp ht with h | h
      · omega
      · exact hdropne h
    have hne : ¬ (((ps.drop ((n - 1).toNat * sz)).take sz).isEmpty = true) := by
      simpa [List.isEmpty_iff] using hslice
    rw [if_neg hne]
  · intro p1 p2 p3 p4 p5 rest
    rfl

theorem projects_command_spec_witness :
    (jsParseInt "3" = some 3
      ∧ projectsLines [] 5 (some "3") = ["No projects on page " ++ intToString 3 ++ "."])
    ∧ (jsParseInt "0" = some 0
      ∧ projectsLines [] 5 (some "0") = projectsLines [] 5 (some "1")) :=
  ⟨⟨by decide, projects_command_spec.2.2.2.1 [] 5 "3" 3 (by decide) (by decide) (by decide)⟩,
   ⟨by decide, projects_command_spec.2.2.1 [] 5 "0" 0 (by decide) (by decide)⟩⟩

/-- Claim C4: `search` lowercases its term and splits it on whitespace
into sub-terms; a project is returned exactly when the lowercased
space-joined concatenation of its title, description and tech contains
every sub-term as a substring (AND semantics, hence insensitivity to the
case of the term); an empty term prints the usage line, zero matches
prints the no-matches line, and otherwise a count header is printed
followed by one line per match carrying its 1-based global index.  The
spec example holds: `zen tool` matches exactly the project at position 0
(`zensu`), `zen map` matches nothing. -/
theorem search_command_spec :
    (∀ ps : List Project, searchLines ps "" = ["Usage: search <term>"])
    ∧ (∀ (ps : List Project) (a b : String), lowerStr a = lowerStr b →
        searchLines ps a = searchLines ps b)
    ∧ (∀ (ps : List Project) (term : String) (i : Nat) (p : Project),
        (i, p) ∈ searchMatches ps term ↔
          ((i, p) ∈ ps.enum
           ∧ ∀ qt ∈ splitWs term, ∃ pre post,
               (searchHay p).data = pre ++ qt.data ++ post))
    ∧ (∀ (ps : List Project) (arg : String), lowerStr arg ≠ "" →
        searchMatches ps (lowerStr arg) = [] →
        searchLines ps arg =
          ["No matches for " ++ sq ++ escapeHtml (lowerStr arg) ++ sq ++ "."])
    ∧ (∀ (ps : List Project) (arg : String), lowerStr arg ≠ "" →
        searchMatches ps (lowerStr arg) ≠ [] →
        searchLines ps arg =
          strong ("Search results ("
              ++ natToString (searchMatches ps (lowerStr arg)).length ++ "):")
            :: (searchMatches ps (lowerStr arg)).map (fun ip => searchResultLine ip.1 ip.2))
    ∧ (searchMatches CONFIG.projects "zen tool").map Prod.fst = [0]
    ∧ searchLines CONFIG.projects "zen map" =
        ["No matches for " ++ sq ++ "zen map" ++ sq ++ "."] := by
  refine ⟨fun ps => rfl, ?_, ?_, ?_, ?_, by decide, by decide⟩
  · intro ps a b h
    unfold searchLines
    rw [h]
  · intro ps term i p
    unfold searchMatches
    rw [List.mem_filter]
    simp only [List.all_eq_true, containsSub_iff]
  · intro ps arg hne hz
    unfold searchLines
    rw [if_neg hne, hz]
    rfl
  · intro ps arg hne hnz
    unfold searchLines
    rw [if_neg hne]
    have hb : ¬ ((searchMatches ps (lowerStr arg)).isEmpty = true) := by
      simpa [List.isEmpty_iff] using hnz
    rw [if_neg hb]

theorem search_command_spec_witness :
    searchLines CONFIG.projects "ZEN TOOL" = searchLines CONFIG.projects "zen tool" :=
  search_command_spec.2.1 CONFIG.projects "ZEN TOOL" "zen tool" (by decide)

/-- Claim C6: `escapeHtml` maps exactly the five markup-sensitive
characters to their entity equivalents and leaves every other character
unchanged; the project, about and search line builders and the open
command's `Opening <title>...` confirmation pass every title,
description, tech tag, skill and bio free-text field through it (the
demo/source URLs are the trusted unescaped interpolations, assumed free
of `<`), so the rendered lines never contain the literal text
`<script>`, whatever those field values are. -/
theorem escape_html_spec :
    (escapeHtml "&" = "&amp;" ∧ escapeHtml "<" = "&lt;" ∧ escapeHtml ">" = "&gt;"
      ∧ escapeHtml (String.singleton quoteChar) = "&quot;" ∧ escapeHtml sq = "&#039;")
    ∧ (∀ c : Char, c ≠ '&' → c ≠ '<' → c ≠ '>' → c ≠ quoteChar → c ≠ aposChar →
        escapeHtml (String.singleton c) = String.singleton c)
    ∧ scriptTag = ("<script>").data
    ∧ (∀ (idx : Nat) (p : Project), '<' ∉ p.demoUrl.data → '<' ∉ p.sourceUrl.data →
        scriptFree (projectLine idx p))
    ∧ (∀ b : BioCfg, ∀ line ∈ aboutLines b, scriptFree line)
    ∧ (∀ (i : Nat) (p : Project), scriptFree (searchResultLine i p))
    ∧ (∀ (ps : List Project) (rh : Option String),
        ∀ line ∈ (openCmd ps rh).1, scriptFree line) := by
  refine ⟨⟨by decide, by decide, by decide, by decide, by decide⟩, ?_, by decide, ?_, ?_, ?_,
    fun ps rh => openCmd_lines_scriptFree ps rh⟩
  · intro c h1 h2 h3 h4 h5
    simp only [escapeHtml, String.singleton, replaceAllChar, if_neg h1, if_neg h2,
      if_neg h3, if_neg h4, if_neg h5, List.append_nil]
    rfl
  · intro idx p h1 h2
    exact scriptFree_of_passesS (passesS_projectLine idx p h1 h2)
  · intro b line hline
    simp only [aboutLines, List.mem_cons, List.not_mem_nil, or_false] at hline
    rcases hline with rfl | rfl | rfl | rfl
    · exact scriptFree_of_passesS (passesS_strong _)
    · exact scriptFree_of_passesS (passesS_escape _)
    · exact scriptFree_of_passesS (passesS_escape _)
    · refine scriptFree_of_passesS
        (passesS_append (passesS_ltFree (s := "Skills: ") (by decide))
          (passesS_joinSep " " (b.skills.map renderTag) (passesS_ltFree (by decide))
            (fun q hq => ?_)))
      obtain ⟨t, _, rfl⟩ := List.mem_map.mp hq
      exact passesS_renderTag t
  · intro i p
    exact scriptFree_of_passesS (passesS_searchResultLine i p)

theorem escape_html_spec_witness :
    escapeHtml (String.singleton 'x') = String.singleton 'x'
    ∧ scriptFree (projectLine 1
        { title := "<script>alert(1)</script>", description := "<script>",
          tech := ["<script>"], demoUrl := "#", sourceUrl := "#" })
    ∧ scriptFree (searchResultLine 0
        { title := "<script>", description := "x", tech := [], demoUrl := "#",
          sourceUrl := "#" })
    ∧ scriptFree ("Opening " ++ escapeHtml "<script>alert(1)</script>" ++ "...") :=
  ⟨escape_html_spec.2.1 'x' (by decide) (by decide) (by decide) (by decide) (by decide),
   escape_html_spec.2.2.2.1 1 _ (by decide) (by decide),
   escape_html_spec.2.2.2.2.2.1 0 _,
   escape_html_spec.2.2.2.2.2.2
     [{ title := "<script>alert(1)</script>", description := "x", tech := [],
        demoUrl := "#", sourceUrl := "#" }] (some "1")
     ("Opening " ++ escapeHtml "<script>alert(1)</script>" ++ "...") (by decide)⟩

end Portfolio
